import Mathlib

/-!
Verification of the upload orchestrator in `src/client/Uploader.tsx`.

The component is shallowly embedded as trace-producing functions: each submit
handler, given the injected transport adapter's outcomes, produces the ordered
list of observable events it performs (adapter calls, state writes, the
`onSuccess` / `onFail` notifications and the companion-list `refetch` trigger).
State writes are then replayed over an explicit component state.
-/

namespace Uploader

/-- A locally selected file: the orchestrator only observes its name and byte size. -/
structure File where
  name : String
  size : Nat
deriving DecidableEq, Repr

/-- Outcome of one transport-adapter call (`Promise<Response>`): the promise
resolves with `response.ok` true (`ok`), resolves with `response.ok` false
(`notOk`), or rejects (`reject`). -/
inductive Outcome where
  | ok
  | notOk
  | reject
deriving DecidableEq, Repr

/-- Whether the adapter outcome is an accepted (`response.ok`) resolution. -/
def isOk : Outcome → Bool
  | .ok => true
  | _ => false

/-- Whether the adapter outcome is a rejected promise. -/
def isReject : Outcome → Bool
  | .reject => true
  | _ => false

/-- The `FormData` payload built for one chunk (Uploader.tsx lines 66-74):
the sliced byte range of the file, the file name, the zero-based chunk index
and the total chunk count. -/
structure ChunkPayload where
  name : String
  start : Nat
  stop : Nat
  currentChunkIndex : Nat
  totalChunks : Nat
deriving DecidableEq, Repr

/-- Observable events a submit handler performs, in program order. -/
inductive Event where
  | callChunk (p : ChunkPayload)
  | callUpload (f : File)
  | setError (msg : String)
  | setChunksProgress (p : Nat)
  | onFail (msg : String)
  | onSuccess
  | refetch
  | setFiles (fs : List File)
deriving DecidableEq, Repr

/-- Component state touched by the handlers: the selected `files`, the
user-facing `error` string and the `chunksProgress` percentage. -/
structure UploaderState where
  files : List File
  error : String
  chunksProgress : Nat
deriving DecidableEq, Repr

/-- Replay one state-write event over the component state; calls and
notifications leave the state unchanged. -/
def applyEvent (s : UploaderState) : Event → UploaderState
  | .setError m => { s with error := m }
  | .setChunksProgress p => { s with chunksProgress := p }
  | .setFiles fs => { s with files := fs }
  | _ => s

/-- Replay a whole event trace over the component state. -/
def applyTrace (s : UploaderState) (tr : List Event) : UploaderState :=
  tr.foldl applyEvent s

/-- `Math.ceil(file.size / chunkSize)` (Uploader.tsx line 63), in exact
natural-number arithmetic. -/
def totalChunks (fileSize chunkSize : Nat) : Nat :=
  (fileSize + chunkSize - 1) / chunkSize

/-- `Math.round(((i + 1) / totalChunks) * 100)` (Uploader.tsx line 89) in
exact arithmetic, with `j = i + 1`: `Math.round x = ⌊x + 1/2⌋` for
nonnegative `x`, and `⌊100 * j / n + 1/2⌋ = (200 * j + n) / (2 * n)`
as natural-number division. -/
def roundProgress (j n : Nat) : Nat :=
  (200 * j + n) / (2 * n)

/-- The chunk descriptor list implicit in the loop of Uploader.tsx lines
65-69: descriptor `i` is the pair `(start, end)` with
`start = i * chunkSize` and `end = min(file.size, start + chunkSize)`. -/
def planChunks (fileSize chunkSize : Nat) : List (Nat × Nat) :=
  (List.range (totalChunks fileSize chunkSize)).map fun i =>
    (i * chunkSize, min fileSize (i * chunkSize + chunkSize))

/-- The `FormData` built for chunk `i` of `file` (Uploader.tsx lines 66-74). -/
def mkChunkPayload (file : File) (chunkSize n i : Nat) : ChunkPayload :=
  { name := file.name
    start := i * chunkSize
    stop := min file.size (i * chunkSize + chunkSize)
    currentChunkIndex := i
    totalChunks := n }

/-- The chunk loop of Uploader.tsx lines 65-98 over the remaining chunk
indices: call the adapter; on an ok resolution record the progress update and
continue; on a not-ok resolution or a rejection set the error, notify
`onFail` and break (both failure branches are identical in the source). -/
def runChunks (uploadChunk : Nat → Outcome) (file : File)
    (chunkSize n : Nat) : List Nat → List Event
  | [] => []
  | i :: rest =>
    Event.callChunk (mkChunkPayload file chunkSize n i) ::
      match uploadChunk i with
      | .ok =>
          Event.setChunksProgress (roundProgress (i + 1) n) ::
            runChunks uploadChunk file chunkSize n rest
      | .notOk =>
          [Event.setError "Chunked upload failed", Event.onFail "Chunked upload failed"]
      | .reject =>
          [Event.setError "Chunked upload failed", Event.onFail "Chunked upload failed"]

/-- The chunked submit handler `onChunkSubmit` (Uploader.tsx lines 57-104):
guarded by a non-empty selection, it takes the FIRST selected file, runs the
chunk loop, and afterwards unconditionally triggers the list refresh and the
success notification (lines 99-102). -/
def onChunkSubmit (uploadChunk : Nat → Outcome) (files : List File)
    (chunkSize : Nat) : List Event :=
  match files with
  | [] => []
  | file :: _ =>
    let n := totalChunks file.size chunkSize
    runChunks uploadChunk file chunkSize n (List.range n) ++
      [Event.refetch, Event.onSuccess]

/-- The whole-file submit handler `onSubmit` (Uploader.tsx lines 106-128):
dispatch one adapter call per selected file, then `Promise.all`: it rejects
iff some per-file promise rejects (a resolved not-ok response is NOT
inspected); on resolution refresh, notify success and clear the selection;
on rejection set the error and notify failure. -/
def onSubmit (upload : File → Outcome) (files : List File) : List Event :=
  files.map Event.callUpload ++
    (if files.any fun f => isReject (upload f) then
      [Event.setError "Something went wrong during upload",
        Event.onFail "Something went wrong during upload"]
    else
      [Event.refetch, Event.onSuccess, Event.setFiles []])

/-- Number of `onSuccess` notifications in a trace. -/
def onSuccessCount (tr : List Event) : Nat :=
  tr.countP fun e => match e with | .onSuccess => true | _ => false

/-- The messages passed to `onFail`, in order. -/
def onFailMsgs (tr : List Event) : List String :=
  tr.filterMap fun e => match e with | .onFail m => some m | _ => none

/-- Number of `onFail` notifications in a trace. -/
def onFailCount (tr : List Event) : Nat :=
  (onFailMsgs tr).length

/-- Number of companion-list refresh triggers in a trace. -/
def refetchCount (tr : List Event) : Nat :=
  tr.countP fun e => match e with | .refetch => true | _ => false

/-- The chunk indices the chunk adapter was called with, in order. -/
def chunkCalls (tr : List Event) : List Nat :=
  tr.filterMap fun e => match e with | .callChunk p => some p.currentChunkIndex | _ => none

/-- The files the whole-file adapter was called with, in order. -/
def uploadCalls (tr : List Event) : List File :=
  tr.filterMap fun e => match e with | .callUpload f => some f | _ => none

/-- The values written to the chunk progress state, in order. -/
def progressWrites (tr : List Event) : List Nat :=
  tr.filterMap fun e => match e with | .setChunksProgress p => some p | _ => none

/-- Whether a chunked run over `n` chunks aborts: some chunk among the first
`n` has a non-ok adapter outcome. -/
def chunkRunFails (uploadChunk : Nat → Outcome) (n : Nat) : Bool :=
  (List.range n).any fun i => !(isOk (uploadChunk i))

/-- The full contract of the chunk plan computed by the loop header of
`onChunkSubmit`: chunk count is the ceiling of `fileSize / chunkSize`
(characterized as the least `m` with `fileSize ≤ m * chunkSize`), every
descriptor has the stated byte range, consecutive descriptors are contiguous,
every byte position below `fileSize` lies in exactly one descriptor's range,
and the range lengths sum to `fileSize`. -/
def chunkPlanSpec (f c : Nat) : Prop :=
  (planChunks f c).length = totalChunks f c
    ∧ f ≤ totalChunks f c * c
    ∧ (∀ m, f ≤ m * c → totalChunks f c ≤ m)
    ∧ (∀ i, i < totalChunks f c →
        (planChunks f c)[i]? = some (i * c, min f (i * c + c)))
    ∧ (∀ i, i + 1 < totalChunks f c → min f (i * c + c) = (i + 1) * c)
    ∧ (∀ x, x < f → ∃! p, p ∈ planChunks f c ∧ p.1 ≤ x ∧ x < p.2)
    ∧ ((planChunks f c).map fun p => p.2 - p.1).sum = f

section Arith

/-- The ceiling count covers the whole file: `fileSize ≤ totalChunks * chunkSize`. -/
theorem le_totalChunks_mul (f c : Nat) (hc : 1 ≤ c) : f ≤ totalChunks f c * c := by
  rcases Nat.eq_zero_or_pos f with h0 | h0
  · simp [h0]
  · have hf : f + c - 1 = (f - 1) + c := by omega
    have ht : totalChunks f c = (f - 1) / c + 1 := by
      unfold totalChunks
      rw [hf, Nat.add_div_right _ (by omega)]
    have hdm := Nat.div_add_mod (f - 1) c
    have hmod : (f - 1) % c < c := Nat.mod_lt _ (by omega)
    rw [ht, Nat.succ_mul, Nat.mul_comm]
    generalize hB : c * ((f - 1) / c) = B at hdm ⊢
    generalize hr : (f - 1) % c = r at hdm hmod
    omega

/-- The ceiling count is the least chunk count covering the file. -/
theorem totalChunks_le_of_le (f c m : Nat) (hc : 1 ≤ c) (h : f ≤ m * c) :
    totalChunks f c ≤ m := by
  have h1 : f + c - 1 < (m + 1) * c := by
    rw [Nat.succ_mul]
    generalize hA : m * c = A at h ⊢
    omega
  exact Nat.le_of_lt_succ ((Nat.div_lt_iff_lt_mul (by omega)).mpr h1)

/-- A chunk index below the count starts strictly inside the file. -/
theorem start_lt_of_lt_totalChunks {f c i : Nat} (hc : 1 ≤ c)
    (hi : i < totalChunks f c) : i * c < f := by
  by_contra h
  push_neg at h
  exact absurd (totalChunks_le_of_le f c i hc h) (by omega)

/-- Any chunk that is not the last one ends exactly at the next chunk's start. -/
theorem min_end_eq_of_succ_lt {f c i : Nat} (hc : 1 ≤ c)
    (hi : i + 1 < totalChunks f c) : min f (i * c + c) = (i + 1) * c := by
  have hle : (i + 1) * c ≤ f := by
    by_contra hx
    push_neg at hx
    exact absurd (totalChunks_le_of_le f c (i + 1) hc (Nat.le_of_lt hx)) (by omega)
  rw [Nat.succ_mul] at hle ⊢
  exact Nat.min_eq_right hle

/-- Every position is inside its own chunk: `x < (x / c) * c + c`. -/
theorem lt_div_mul_add {x c : Nat} (hc : 1 ≤ c) : x < x / c * c + c := by
  have hdm := Nat.div_add_mod x c
  have hmod : x % c < c := Nat.mod_lt _ (by omega)
  rw [Nat.mul_comm]
  generalize hB : c * (x / c) = B at hdm ⊢
  generalize hr : x % c = r at hdm hmod
  omega

/-- Telescoping sum of the clipped chunk lengths over the first `n` chunks. -/
theorem sum_chunk_lengths (f c : Nat) :
    ∀ n, (((List.range n).map fun i => min f (i * c + c) - i * c)).sum
      = min f (n * c)
  | 0 => by simp
  | n + 1 => by
    rw [List.range_succ, List.map_append, List.sum_append, sum_chunk_lengths f c n]
    simp only [List.map_cons, List.map_nil, List.sum_cons, List.sum_nil]
    rw [Nat.succ_mul]
    generalize n * c = A
    rcases Nat.le_total f A with h | h
    · have e1 : min f A = f := Nat.min_eq_left h
      have e2 : min f (A + c) = f := Nat.min_eq_left (by omega)
      rw [e1, e2]
      omega
    · have e1 : min f A = A := Nat.min_eq_right h
      rcases Nat.le_total f (A + c) with h2 | h2
      · have e2 : min f (A + c) = f := Nat.min_eq_left h2
        rw [e1, e2]
        omega
      · have e2 : min f (A + c) = A + c := Nat.min_eq_right h2
        rw [e1, e2]
        omega

end Arith

/-- Membership in the chunk plan is exactly having the descriptor shape for
some index below the count. -/
theorem mem_planChunks {f c : Nat} {p : Nat × Nat} :
    p ∈ planChunks f c ↔
      ∃ i, i < totalChunks f c ∧ p = (i * c, min f (i * c + c)) := by
  simp only [planChunks, List.mem_map, List.mem_range]
  constructor
  · rintro ⟨i, hi, rfl⟩
    exact ⟨i, hi, rfl⟩
  · rintro ⟨i, hi, rfl⟩
    exact ⟨i, hi, rfl⟩

/-- C3: for every `fileSize ≥ 0` and `chunkSize ≥ 1` the chunk plan computes
`totalChunks = ceil(fileSize / chunkSize)`, chunk `i` covers
`[i*chunkSize, min(fileSize, (i+1)*chunkSize))`, the ranges are contiguous
and non-overlapping, they exactly cover `[0, fileSize)`, and the range
lengths sum to `fileSize`. -/
theorem C3_chunk_plan (f c : Nat) (hc : 1 ≤ c) : chunkPlanSpec f c := by
  have hc0 : 0 < c := hc
  refine ⟨by simp [planChunks], le_totalChunks_mul f c hc,
    fun m hm => totalChunks_le_of_le f c m hc hm, ?_, ?_, ?_, ?_⟩
  · intro i hi
    simp [planChunks, List.getElem?_range, hi]
  · intro i hi
    exact min_end_eq_of_succ_lt hc hi
  · intro x hx
    have hxt : x / c < totalChunks f c := by
      have hxtc : x < totalChunks f c * c :=
        Nat.lt_of_lt_of_le hx (le_totalChunks_mul f c hc)
      exact (Nat.div_lt_iff_lt_mul hc0).mpr hxtc
    refine ⟨(x / c * c, min f (x / c * c + c)), ⟨?_, ?_, ?_⟩, ?_⟩
    · exact mem_planChunks.mpr ⟨x / c, hxt, rfl⟩
    · exact Nat.div_mul_le_self x c
    · exact Nat.lt_min.mpr ⟨hx, lt_div_mul_add hc⟩
    · rintro q ⟨hq, hq1, hq2⟩
      obtain ⟨j, hj, rfl⟩ := mem_planChunks.mp hq
      have hj2 : x < j * c + c := Nat.lt_of_lt_of_le hq2 (Nat.min_le_right _ _)
      have hdiv : x / c = j := by
        apply Nat.div_eq_of_lt_le hq1
        rw [Nat.succ_mul]
        exact hj2
      rw [hdiv]
  · have hmap : ((planChunks f c).map fun p => p.2 - p.1)
        = (List.range (totalChunks f c)).map fun i => min f (i * c + c) - i * c := by
      simp [planChunks]
    rw [hmap, sum_chunk_lengths f c (totalChunks f c)]
    exact Nat.min_eq_left (le_totalChunks_mul f c hc)

/-- Witness for C3 at `fileSize = 5`, `chunkSize = 2`. -/
theorem C3_chunk_plan_witness : 1 ≤ 2 ∧ chunkPlanSpec 5 2 :=
  ⟨by decide, C3_chunk_plan 5 2 (by decide)⟩

section TraceLemmas

variable {ad : Nat → Outcome} {f : File} {cs n : Nat}

/-- One rejected or not-ok chunk at the head of the remaining work produces
exactly the call, the error write and the failure notification, and nothing
for the indices after it. -/
theorem runChunks_cons_fail {k : Nat} (l₂ : List Nat) (hk : isOk (ad k) = false) :
    runChunks ad f cs n (k :: l₂)
      = [Event.callChunk (mkChunkPayload f cs n k),
          Event.setError "Chunked upload failed",
          Event.onFail "Chunked upload failed"] := by
  cases had : ad k with
  | ok => rw [had] at hk; exact absurd hk (by simp [isOk])
  | notOk => simp [runChunks, had]
  | reject => simp [runChunks, had]

/-- The chunk loop distributes over an index-list split whose first part is
all accepted. -/
theorem runChunks_append_ok {l₁ : List Nat} (l₂ : List Nat)
    (h : ∀ i ∈ l₁, isOk (ad i) = true) :
    runChunks ad f cs n (l₁ ++ l₂)
      = runChunks ad f cs n l₁ ++ runChunks ad f cs n l₂ := by
  induction l₁ with
  | nil => simp [runChunks]
  | cons i l ih =>
    have hi : isOk (ad i) = true := h i (List.mem_cons_self i l)
    cases had : ad i with
    | ok =>
      simp only [List.cons_append, runChunks, had, List.append_eq]
      rw [ih fun j hj => h j (List.mem_cons_of_mem i hj)]
    | notOk => rw [had] at hi; exact absurd hi (by simp [isOk])
    | reject => rw [had] at hi; exact absurd hi (by simp [isOk])

/-- The chunk loop itself never notifies success. -/
theorem onSuccessCount_runChunks (l : List Nat) :
    onSuccessCount (runChunks ad f cs n l) = 0 := by
  induction l with
  | nil => rfl
  | cons i l ih =>
    cases had : ad i with
    | ok =>
      simp only [runChunks, had, onSuccessCount, List.countP_cons] at ih ⊢
      simp [ih]
    | notOk => rw [runChunks_cons_fail l (by rw [had]; rfl)]; rfl
    | reject => rw [runChunks_cons_fail l (by rw [had]; rfl)]; rfl

/-- The chunk loop itself never triggers the companion-list refresh. -/
theorem refetchCount_runChunks (l : List Nat) :
    refetchCount (runChunks ad f cs n l) = 0 := by
  induction l with
  | nil => rfl
  | cons i l ih =>
    cases had : ad i with
    | ok =>
      simp only [runChunks, had, refetchCount, List.countP_cons] at ih ⊢
      simp [ih]
    | notOk => rw [runChunks_cons_fail l (by rw [had]; rfl)]; rfl
    | reject => rw [runChunks_cons_fail l (by rw [had]; rfl)]; rfl

/-- The chunk loop emits no selection write. -/
theorem setFiles_not_mem_runChunks (l : List Nat) (fs : List File) :
    Event.setFiles fs ∉ runChunks ad f cs n l := by
  induction l with
  | nil => simp [runChunks]
  | cons i l ih =>
    cases had : ad i with
    | ok =>
      simp only [runChunks, had, List.mem_cons]
      rintro (h | h | h)
      · cases h
      · cases h
      · exact ih h
    | notOk => rw [runChunks_cons_fail l (by rw [had]; rfl)]; simp
    | reject => rw [runChunks_cons_fail l (by rw [had]; rfl)]; simp

/-- The chunk loop notifies `onFail` with the exact message
`"Chunked upload failed"` exactly once iff some remaining chunk is refused,
and never otherwise. -/
theorem onFailMsgs_runChunks (l : List Nat) :
    onFailMsgs (runChunks ad f cs n l)
      = if l.any (fun i => !(isOk (ad i))) then ["Chunked upload failed"] else [] := by
  induction l with
  | nil => rfl
  | cons i l ih =>
    cases had : ad i with
    | ok =>
      simp only [runChunks, had, onFailMsgs, List.filterMap_cons] at ih ⊢
      simp [List.any_cons, had, isOk, ih]
    | notOk =>
      rw [runChunks_cons_fail l (by rw [had]; rfl)]
      simp [List.any_cons, had, isOk, onFailMsgs]
    | reject =>
      rw [runChunks_cons_fail l (by rw [had]; rfl)]
      simp [List.any_cons, had, isOk, onFailMsgs]

/-- On an all-accepted index list the loop calls the adapter on every index
in order. -/
theorem chunkCalls_runChunks_ok {l : List Nat}
    (h : ∀ i ∈ l, isOk (ad i) = true) :
    chunkCalls (runChunks ad f cs n l) = l := by
  induction l with
  | nil => rfl
  | cons i l ih =>
    have hi : isOk (ad i) = true := h i (List.mem_cons_self i l)
    cases had : ad i with
    | ok =>
      have ih2 := ih fun j hj => h j (List.mem_cons_of_mem i hj)
      simp only [runChunks, had, chunkCalls, List.filterMap_cons] at ih2 ⊢
      simp [mkChunkPayload, ih2]
    | notOk => rw [had] at hi; exact absurd hi (by simp [isOk])
    | reject => rw [had] at hi; exact absurd hi (by simp [isOk])

/-- On an all-accepted index list the loop records exactly the rounded
per-chunk progress values, in index order. -/
theorem progressWrites_runChunks_ok {l : List Nat}
    (h : ∀ i ∈ l, isOk (ad i) = true) :
    progressWrites (runChunks ad f cs n l)
      = l.map fun i => roundProgress (i + 1) n := by
  induction l with
  | nil => rfl
  | cons i l ih =>
    have hi : isOk (ad i) = true := h i (List.mem_cons_self i l)
    cases had : ad i with
    | ok =>
      have ih2 := ih fun j hj => h j (List.mem_cons_of_mem i hj)
      simp only [runChunks, had, progressWrites, List.filterMap_cons] at ih2 ⊢
      simp [ih2]
    | notOk => rw [had] at hi; exact absurd hi (by simp [isOk])
    | reject => rw [had] at hi; exact absurd hi (by simp [isOk])

/-- Whatever the adapter outcomes, the progress values recorded by the loop
are those of an initial segment of the planned chunk indices. -/
theorem progressWrites_runChunks_initial (l : List Nat) :
    ∃ l₁, l₁ <+: l ∧
      progressWrites (runChunks ad f cs n l)
        = l₁.map fun i => roundProgress (i + 1) n := by
  induction l with
  | nil => exact ⟨[], List.nil_prefix, rfl⟩
  | cons i l ih =>
    cases had : ad i with
    | ok =>
      obtain ⟨l₁, hpre, heq⟩ := ih
      refine ⟨i :: l₁, List.cons_prefix_cons.mpr ⟨rfl, hpre⟩, ?_⟩
      simp only [runChunks, had, progressWrites, List.filterMap_cons] at heq ⊢
      simp [heq]
    | notOk =>
      refine ⟨[], List.nil_prefix, ?_⟩
      rw [runChunks_cons_fail l (by rw [had]; rfl)]
      rfl
    | reject =>
      refine ⟨[], List.nil_prefix, ?_⟩
      rw [runChunks_cons_fail l (by rw [had]; rfl)]
      rfl

/-- Every error write the chunk loop emits carries the fixed message
`"Chunked upload failed"`; in particular an attempt never clears the
error string. -/
theorem setError_mem_runChunks (l : List Nat) (m : String)
    (he : Event.setError m ∈ runChunks ad f cs n l) :
    m = "Chunked upload failed" := by
  induction l with
  | nil => cases he
  | cons i l ih =>
    cases had : ad i with
    | ok =>
      simp only [runChunks, had, List.mem_cons] at he
      rcases he with h | h | h
      · cases h
      · cases h
      · exact ih h
    | notOk =>
      rw [runChunks_cons_fail l (by rw [had]; rfl)] at he
      simp only [List.mem_cons, List.not_mem_nil, or_false] at he
      rcases he with h | h | h
      · cases h
      · cases h; rfl
      · cases h
    | reject =>
      rw [runChunks_cons_fail l (by rw [had]; rfl)] at he
      simp only [List.mem_cons, List.not_mem_nil, or_false] at he
      rcases he with h | h | h
      · cases h
      · cases h; rfl
      · cases h

end TraceLemmas

/-- Replaying a concatenated trace replays the parts in order. -/
theorem applyTrace_append (s : UploaderState) (tr₁ tr₂ : List Event) :
    applyTrace s (tr₁ ++ tr₂) = applyTrace (applyTrace s tr₁) tr₂ :=
  List.foldl_append ..

/-- The rounded percentage never decreases from one completed chunk to the next. -/
theorem roundProgress_mono (j n : Nat) :
    roundProgress j n ≤ roundProgress (j + 1) n :=
  Nat.div_le_div_right (by omega)

/-- For at most 100 chunks each completed chunk strictly increases the
rounded percentage. -/
theorem roundProgress_strict (j n : Nat) (h1 : 1 ≤ n) (h2 : n ≤ 100) :
    roundProgress j n < roundProgress (j + 1) n := by
  have key : (200 * j + n + 2 * n) / (2 * n) ≤ roundProgress (j + 1) n :=
    Nat.div_le_div_right (by omega)
  rw [Nat.add_div_right _ (by omega)] at key
  exact Nat.lt_of_lt_of_le (Nat.lt_succ_self _) key

/-- After the last chunk the rounded percentage is exactly 100. -/
theorem roundProgress_last (n : Nat) (h : 1 ≤ n) : roundProgress n n = 100 := by
  show (200 * n + n) / (2 * n) = 100
  exact Nat.div_eq_of_lt_le (by omega) (by omega)

/-- A pointwise step bound makes the image of an initial segment a
non-decreasing chain. -/
theorem chain_le_map_range (g : Nat → Nat) (hg : ∀ i, g i ≤ g (i + 1)) :
    ∀ m : Nat, List.Chain' (· ≤ ·) ((List.range m).map g)
  | 0 => by simp
  | m + 1 => by
    rw [List.chain'_map]
    exact (List.chain'_range_succ _ m).mpr fun i _ => hg i

/-- A pointwise strict step makes the image of an initial segment a strictly
increasing chain. -/
theorem chain_lt_map_range (g : Nat → Nat) (hg : ∀ i, g i < g (i + 1)) :
    ∀ m : Nat, List.Chain' (· < ·) ((List.range m).map g)
  | 0 => by simp
  | m + 1 => by
    rw [List.chain'_map]
    exact (List.chain'_range_succ _ m).mpr fun i _ => hg i

/-- Dispatching the whole-file adapter calls emits no success notification. -/
theorem onSuccessCount_map_callUpload (files : List File) :
    onSuccessCount (files.map Event.callUpload) = 0 := by
  induction files with
  | nil => rfl
  | cons g l ih =>
    simp only [onSuccessCount, List.map_cons, List.countP_cons] at ih ⊢
    simp [ih]

/-- Dispatching the whole-file adapter calls emits no failure notification. -/
theorem onFailMsgs_map_callUpload (files : List File) :
    onFailMsgs (files.map Event.callUpload) = [] := by
  induction files with
  | nil => rfl
  | cons g l ih =>
    simp only [onFailMsgs, List.map_cons, List.filterMap_cons] at ih ⊢
    simp [ih]

/-- Dispatching the whole-file adapter calls triggers no refresh. -/
theorem refetchCount_map_callUpload (files : List File) :
    refetchCount (files.map Event.callUpload) = 0 := by
  induction files with
  | nil => rfl
  | cons g l ih =>
    simp only [refetchCount, List.map_cons, List.countP_cons] at ih ⊢
    simp [ih]

/-- The dispatch loop calls the whole-file adapter once per selected file,
in selection order. -/
theorem uploadCalls_map_callUpload (files : List File) :
    uploadCalls (files.map Event.callUpload) = files := by
  induction files with
  | nil => rfl
  | cons g l ih =>
    simp only [uploadCalls, List.map_cons, List.filterMap_cons] at ih ⊢
    simp [ih]

/-- Dispatching the whole-file adapter calls does not change the component
state. -/
theorem applyTrace_map_callUpload (files : List File) (s : UploaderState) :
    applyTrace s (files.map Event.callUpload) = s := by
  induction files generalizing s with
  | nil => rfl
  | cons g l ih => exact ih s

/-- A trace containing no selection write leaves the selection unchanged. -/
theorem files_applyTrace (tr : List Event)
    (h : ∀ fs, Event.setFiles fs ∉ tr) :
    ∀ s : UploaderState, (applyTrace s tr).files = s.files := by
  induction tr with
  | nil => intro s; rfl
  | cons e tr ih =>
    intro s
    have h1 : ∀ fs, Event.setFiles fs ∉ tr :=
      fun fs hf => h fs (List.mem_cons_of_mem _ hf)
    have step : applyTrace s (e :: tr) = applyTrace (applyEvent s e) tr := rfl
    rw [step, ih h1]
    cases e with
    | setFiles fs => exact absurd (List.mem_cons_self _ _) (h fs)
    | callChunk p => rfl
    | callUpload g => rfl
    | setError m => rfl
    | setChunksProgress p => rfl
    | onFail m => rfl
    | onSuccess => rfl
    | refetch => rfl

/-- Success notifications add up over trace concatenation. -/
theorem onSuccessCount_append (t u : List Event) :
    onSuccessCount (t ++ u) = onSuccessCount t + onSuccessCount u :=
  List.countP_append _ t u

/-- Failure messages concatenate over trace concatenation. -/
theorem onFailMsgs_append (t u : List Event) :
    onFailMsgs (t ++ u) = onFailMsgs t ++ onFailMsgs u :=
  List.filterMap_append t u _

/-- Refresh triggers add up over trace concatenation. -/
theorem refetchCount_append (t u : List Event) :
    refetchCount (t ++ u) = refetchCount t + refetchCount u :=
  List.countP_append _ t u

/-- Chunk-adapter calls concatenate over trace concatenation. -/
theorem chunkCalls_append (t u : List Event) :
    chunkCalls (t ++ u) = chunkCalls t ++ chunkCalls u :=
  List.filterMap_append t u _

/-- Whole-file adapter calls concatenate over trace concatenation. -/
theorem uploadCalls_append (t u : List Event) :
    uploadCalls (t ++ u) = uploadCalls t ++ uploadCalls u :=
  List.filterMap_append t u _

/-- Progress writes concatenate over trace concatenation. -/
theorem progressWrites_append (t u : List Event) :
    progressWrites (t ++ u) = progressWrites t ++ progressWrites u :=
  List.filterMap_append t u _

/-- When some per-file promise rejects, `onSubmit` is the dispatch calls
followed by the error write and the failure notification. -/
theorem onSubmit_reject_eq {upload : File → Outcome} {files : List File}
    (h : files.any (fun g => isReject (upload g)) = true) :
    onSubmit upload files
      = files.map Event.callUpload
        ++ [Event.setError "Something went wrong during upload",
            Event.onFail "Something went wrong during upload"] := by
  simp [onSubmit, h]

/-- When every per-file promise resolves, `onSubmit` is the dispatch calls
followed by the refresh, the success notification and the selection clear. -/
theorem onSubmit_resolve_eq {upload : File → Outcome} {files : List File}
    (h : files.any (fun g => isReject (upload g)) = false) :
    onSubmit upload files
      = files.map Event.callUpload
        ++ [Event.refetch, Event.onSuccess, Event.setFiles []] := by
  simp [onSubmit, h]

/-- C1 (amended): in whole-file mode exactly one of `onSuccess`/`onFail`
fires per submit attempt; in chunked mode with a non-empty selection
`onSuccess` always fires exactly once — even after a failed chunk — and
`onFail` additionally fires exactly once iff some chunk fails, so a failed
chunked run fires both; with an empty selection the chunked handler fires
neither. -/
theorem C1_notifications (upload : File → Outcome) (ad : Nat → Outcome)
    (cs : Nat) (files : List File) (fo : File) (rest : List File) :
    ((onSuccessCount (onSubmit upload files) = 1
          ∧ onFailCount (onSubmit upload files) = 0)
        ∨ (onSuccessCount (onSubmit upload files) = 0
          ∧ onFailCount (onSubmit upload files) = 1))
      ∧ onSuccessCount (onChunkSubmit ad (fo :: rest) cs) = 1
      ∧ onFailCount (onChunkSubmit ad (fo :: rest) cs)
          = (if chunkRunFails ad (totalChunks fo.size cs) then 1 else 0)
      ∧ onChunkSubmit ad [] cs = [] := by
  have htr : onChunkSubmit ad (fo :: rest) cs
      = runChunks ad fo cs (totalChunks fo.size cs)
          (List.range (totalChunks fo.size cs))
        ++ [Event.refetch, Event.onSuccess] := rfl
  refine ⟨?_, ?_, ?_, rfl⟩
  · by_cases hb : files.any (fun g => isReject (upload g)) = true
    · right
      rw [onSubmit_reject_eq hb, onFailCount, onSuccessCount_append,
        onFailMsgs_append, onSuccessCount_map_callUpload, onFailMsgs_map_callUpload]
      exact ⟨rfl, rfl⟩
    · left
      rw [Bool.not_eq_true] at hb
      rw [onSubmit_resolve_eq hb, onFailCount, onSuccessCount_append,
        onFailMsgs_append, onSuccessCount_map_callUpload, onFailMsgs_map_callUpload]
      exact ⟨rfl, rfl⟩
  · rw [htr, onSuccessCount_append, onSuccessCount_runChunks]
    rfl
  · rw [htr, onFailCount, onFailMsgs_append, onFailMsgs_runChunks]
    show ((if (List.range (totalChunks fo.size cs)).any (fun i => !(isOk (ad i)))
        then ["Chunked upload failed"] else []) ++ ([] : List String)).length
      = if chunkRunFails ad (totalChunks fo.size cs) then 1 else 0
    by_cases hc : chunkRunFails ad (totalChunks fo.size cs) = true
    · have hc2 := hc
      rw [chunkRunFails] at hc2
      simp [hc, hc2]
    · rw [Bool.not_eq_true] at hc
      have hc2 := hc
      rw [chunkRunFails] at hc2
      simp [hc, hc2]

/-- C1 counterexample: a chunked run whose single chunk is refused fires BOTH
notifications — `onFail` once and `onSuccess` once — refuting "never both". -/
theorem C1_counterexample :
    onSuccessCount (onChunkSubmit (fun _ => Outcome.notOk) [⟨"b", 2⟩] 1) = 1
      ∧ onFailCount (onChunkSubmit (fun _ => Outcome.notOk) [⟨"b", 2⟩] 1) = 1 := by
  decide

/-- C2 (amended): after the chunk loop ends the companion-listing refresh is
invoked exactly once, unconditionally, and the success notification is ALSO
invoked exactly once, unconditionally — aborted or not; both come after the
whole loop body. -/
theorem C2_refresh_unconditional (ad : Nat → Outcome) (cs : Nat)
    (fo : File) (rest : List File) :
    (∃ body, onChunkSubmit ad (fo :: rest) cs
          = body ++ [Event.refetch, Event.onSuccess]
        ∧ refetchCount body = 0 ∧ onSuccessCount body = 0)
      ∧ refetchCount (onChunkSubmit ad (fo :: rest) cs) = 1
      ∧ onSuccessCount (onChunkSubmit ad (fo :: rest) cs) = 1 := by
  have htr : onChunkSubmit ad (fo :: rest) cs
      = runChunks ad fo cs (totalChunks fo.size cs)
          (List.range (totalChunks fo.size cs))
        ++ [Event.refetch, Event.onSuccess] := rfl
  refine ⟨⟨runChunks ad fo cs (totalChunks fo.size cs)
      (List.range (totalChunks fo.size cs)), htr,
      refetchCount_runChunks _, onSuccessCount_runChunks _⟩, ?_, ?_⟩
  · rw [htr, refetchCount_append, refetchCount_runChunks]
    rfl
  · rw [htr, onSuccessCount_append, onSuccessCount_runChunks]
    rfl

/-- C2 counterexample: a chunked run aborted on its first chunk (the failure
notification fires) still invokes `onSuccess`, refuting "only if NOT
aborted". -/
theorem C2_counterexample :
    onFailCount (onChunkSubmit (fun _ => Outcome.reject) [⟨"c", 3⟩] 2) = 1
      ∧ onSuccessCount (onChunkSubmit (fun _ => Outcome.reject) [⟨"c", 3⟩] 2) = 1 := by
  decide

/-- C4: if the adapter refuses chunk `k` (not-ok or rejected) and every
earlier chunk was accepted, the adapter is called exactly on chunks
`0..k` — never on any index greater than `k` — the transfer error is set to
`"Chunked upload failed"`, and `onFail` is invoked once with that exact
message. -/
theorem C4_fail_fast (ad : Nat → Outcome) (fo : File) (rest : List File)
    (cs k : Nat) (hk : k < totalChunks fo.size cs)
    (hfirst : ∀ i, i < k → isOk (ad i) = true)
    (hfail : isOk (ad k) = false) :
    chunkCalls (onChunkSubmit ad (fo :: rest) cs) = List.range (k + 1)
      ∧ (∀ j ∈ chunkCalls (onChunkSubmit ad (fo :: rest) cs), j ≤ k)
      ∧ onFailMsgs (onChunkSubmit ad (fo :: rest) cs) = ["Chunked upload failed"]
      ∧ ∀ s, (applyTrace s (onChunkSubmit ad (fo :: rest) cs)).error
          = "Chunked upload failed" := by
  have htr : onChunkSubmit ad (fo :: rest) cs
      = runChunks ad fo cs (totalChunks fo.size cs)
          (List.range (totalChunks fo.size cs))
        ++ [Event.refetch, Event.onSuccess] := rfl
  have hsplit : List.range (totalChunks fo.size cs)
      = List.range k
        ++ (k :: ((List.range (totalChunks fo.size cs - (k + 1))).map
            fun x => (k + 1) + x)) := by
    have h1 : totalChunks fo.size cs
        = (k + 1) + (totalChunks fo.size cs - (k + 1)) := by omega
    conv_lhs => rw [h1]
    rw [List.range_add, List.range_succ]
    simp [List.append_assoc]
  have hok : ∀ i ∈ List.range k, isOk (ad i) = true := fun i hi =>
    hfirst i (List.mem_range.mp hi)
  have hrun : runChunks ad fo cs (totalChunks fo.size cs)
      (List.range (totalChunks fo.size cs))
      = runChunks ad fo cs (totalChunks fo.size cs) (List.range k)
        ++ [Event.callChunk (mkChunkPayload fo cs (totalChunks fo.size cs) k),
            Event.setError "Chunked upload failed",
            Event.onFail "Chunked upload failed"] := by
    rw [hsplit, runChunks_append_ok _ hok, runChunks_cons_fail _ hfail]
  have hcalls : chunkCalls (onChunkSubmit ad (fo :: rest) cs)
      = List.range (k + 1) := by
    rw [htr, chunkCalls_append, hrun, chunkCalls_append,
      chunkCalls_runChunks_ok hok, List.range_succ]
    simp [chunkCalls, mkChunkPayload]
  refine ⟨hcalls, ?_, ?_, ?_⟩
  · intro j hj
    rw [hcalls] at hj
    exact Nat.lt_succ_iff.mp (List.mem_range.mp hj)
  · have hnone : (List.range k).any (fun i => !(isOk (ad i))) = false := by
      rw [List.any_eq_false]
      intro i hi
      rw [hok i hi]
      simp
    rw [htr, onFailMsgs_append, hrun, onFailMsgs_append, onFailMsgs_runChunks]
    simp [hnone, onFailMsgs]
  · intro s
    rw [htr, applyTrace_append, hrun, applyTrace_append]
    rfl

/-- Witness for C4: three 1-byte chunks, the adapter accepts chunk 0 and
refuses chunk 1; only chunks 0 and 1 are ever sent. -/
theorem C4_fail_fast_witness :
    (1 < totalChunks 3 1
        ∧ isOk ((fun i => if i = 0 then Outcome.ok else Outcome.notOk) 1) = false)
      ∧ chunkCalls (onChunkSubmit
          (fun i => if i = 0 then Outcome.ok else Outcome.notOk) [⟨"w", 3⟩] 1)
          = List.range 2 := by
  refine ⟨by decide, ?_⟩
  exact (C4_fail_fast (fun i => if i = 0 then Outcome.ok else Outcome.notOk)
    ⟨"w", 3⟩ [] 1 1 (by decide)
    (fun i hi => by
      have h0 : i = 0 := by omega
      subst h0
      rfl)
    (by decide)).1

/-- C5 (amended): in whole-file batch mode every selected file is dispatched;
the batch fails iff some per-file promise REJECTS — a promise that resolves
with a not-ok outcome still counts toward success, since the handler never
inspects `response.ok` — and on failure the error is set to
`"Something went wrong during upload"`, `onFail` is invoked with that exact
message and the selection is untouched, while on all-resolved batches the
refresh and `onSuccess` fire and the selection is cleared. -/
theorem C5_batch_aggregation (upload : File → Outcome) (files : List File) :
    uploadCalls (onSubmit upload files) = files
      ∧ (if files.any (fun g => isReject (upload g)) then
          onFailMsgs (onSubmit upload files) = ["Something went wrong during upload"]
            ∧ onSuccessCount (onSubmit upload files) = 0
            ∧ refetchCount (onSubmit upload files) = 0
            ∧ ∀ s, (applyTrace s (onSubmit upload files)).files = s.files
                ∧ (applyTrace s (onSubmit upload files)).error
                    = "Something went wrong during upload"
        else
          onFailMsgs (onSubmit upload files) = []
            ∧ onSuccessCount (onSubmit upload files) = 1
            ∧ refetchCount (onSubmit upload files) = 1
            ∧ ∀ s, (applyTrace s (onSubmit upload files)).files = []) := by
  by_cases hb : files.any (fun g => isReject (upload g)) = true
  · constructor
    · rw [onSubmit_reject_eq hb, uploadCalls_append, uploadCalls_map_callUpload]
      simp [uploadCalls]
    · simp only [hb, if_true]
      refine ⟨?_, ?_, ?_, ?_⟩
      · rw [onSubmit_reject_eq hb, onFailMsgs_append, onFailMsgs_map_callUpload]
        rfl
      · rw [onSubmit_reject_eq hb, onSuccessCount_append, onSuccessCount_map_callUpload]
        rfl
      · rw [onSubmit_reject_eq hb, refetchCount_append, refetchCount_map_callUpload]
        rfl
      · intro s
        rw [onSubmit_reject_eq hb, applyTrace_append, applyTrace_map_callUpload]
        exact ⟨rfl, rfl⟩
  · rw [Bool.not_eq_true] at hb
    constructor
    · rw [onSubmit_resolve_eq hb, uploadCalls_append, uploadCalls_map_callUpload]
      simp [uploadCalls]
    · simp only [hb, Bool.false_eq_true, if_false]
      refine ⟨?_, ?_, ?_, ?_⟩
      · rw [onSubmit_resolve_eq hb, onFailMsgs_append, onFailMsgs_map_callUpload]
        rfl
      · rw [onSubmit_resolve_eq hb, onSuccessCount_append, onSuccessCount_map_callUpload]
        rfl
      · rw [onSubmit_resolve_eq hb, refetchCount_append, refetchCount_map_callUpload]
        rfl
      · intro s
        rw [onSubmit_resolve_eq hb, applyTrace_append, applyTrace_map_callUpload]
        rfl

/-- C5 counterexample: a batch whose single per-file promise resolves NOT-ok
(an absent-Ok outcome) is treated as a success — `onSuccess` fires, no
`onFail`, and the selection is cleared — refuting that any absent-Ok outcome
fails the batch. -/
theorem C5_counterexample :
    onSuccessCount (onSubmit (fun _ => Outcome.notOk) [⟨"d", 1⟩]) = 1
      ∧ onFailMsgs (onSubmit (fun _ => Outcome.notOk) [⟨"d", 1⟩]) = []
      ∧ (applyTrace ⟨[⟨"d", 1⟩], "", 0⟩
          (onSubmit (fun _ => Outcome.notOk) [⟨"d", 1⟩])).files = [] := by
  decide

/-- C6 (amended): the chunked handler NEVER writes the selection — it stays
unchanged even after a fully successful chunked run — while the whole-file
handler clears the selection exactly when every per-file promise resolves
and leaves it untouched when some promise rejects. -/
theorem C6_selection_clearing (ad : Nat → Outcome) (cs : Nat)
    (files : List File) (upload : File → Outcome) (bfiles : List File)
    (s t : UploaderState) :
    (applyTrace s (onChunkSubmit ad files cs)).files = s.files
      ∧ (applyTrace t (onSubmit upload bfiles)).files
          = (if bfiles.any (fun g => isReject (upload g)) then t.files else []) := by
  constructor
  · apply files_applyTrace
    intro fs hmem
    cases files with
    | nil => simp [onChunkSubmit] at hmem
    | cons fo rest =>
      have htr : onChunkSubmit ad (fo :: rest) cs
          = runChunks ad fo cs (totalChunks fo.size cs)
              (List.range (totalChunks fo.size cs))
            ++ [Event.refetch, Event.onSuccess] := rfl
      rw [htr, List.mem_append] at hmem
      rcases hmem with h | h
      · exact setFiles_not_mem_runChunks _ fs h
      · simp at h
  · by_cases hb : bfiles.any (fun g => isReject (upload g)) = true
    · simp only [hb, if_true]
      rw [onSubmit_reject_eq hb, applyTrace_append, applyTrace_map_callUpload]
      rfl
    · rw [Bool.not_eq_true] at hb
      simp only [hb, Bool.false_eq_true, if_false]
      rw [onSubmit_resolve_eq hb, applyTrace_append, applyTrace_map_callUpload]
      rfl

/-- C6 counterexample: a fully successful chunked run (two accepted chunks,
`onSuccess` fired, no failure) leaves the selection unchanged and non-empty,
refuting "cleared after every fully successful upload". -/
theorem C6_counterexample :
    onFailCount (onChunkSubmit (fun _ => Outcome.ok) [⟨"e", 4⟩] 2) = 0
      ∧ onSuccessCount (onChunkSubmit (fun _ => Outcome.ok) [⟨"e", 4⟩] 2) = 1
      ∧ (applyTrace ⟨[⟨"e", 4⟩], "", 0⟩
          (onChunkSubmit (fun _ => Outcome.ok) [⟨"e", 4⟩] 2)).files
          = [⟨"e", 4⟩] := by
  decide

/-- Whatever the first chunk's outcome, the loop's first emitted event is the
adapter call for that chunk. -/
theorem runChunks_cons_head {ad : Nat → Outcome} {f : File} {cs n : Nat}
    (i : Nat) (l : List Nat) :
    ∃ t, runChunks ad f cs n (i :: l)
      = Event.callChunk (mkChunkPayload f cs n i) :: t := by
  cases had : ad i with
  | ok =>
    refine ⟨Event.setChunksProgress (roundProgress (i + 1) n)
      :: runChunks ad f cs n l, ?_⟩
    simp only [runChunks, had]
  | notOk =>
    refine ⟨[Event.setError "Chunked upload failed",
      Event.onFail "Chunked upload failed"], ?_⟩
    simp only [runChunks, had]
  | reject =>
    refine ⟨[Event.setError "Chunked upload failed",
      Event.onFail "Chunked upload failed"], ?_⟩
    simp only [runChunks, had]

/-- C7 (amended): across a fully accepted chunked run with `n ≥ 1` chunks the
recorded progress values are exactly `round(((i+1)/n)*100)` in order; they
are monotonically non-decreasing, the value after the last chunk is exactly
100, and they are strictly increasing whenever `n ≤ 100` (for `n ≥ 101`
consecutive equal values can occur, see the counterexample). -/
theorem C7_progress_monotone (ad : Nat → Outcome) (cs : Nat) (fo : File)
    (rest : List File)
    (hok : ∀ i, i < totalChunks fo.size cs → isOk (ad i) = true)
    (hn : 1 ≤ totalChunks fo.size cs) :
    progressWrites (onChunkSubmit ad (fo :: rest) cs)
        = (List.range (totalChunks fo.size cs)).map
            (fun i => roundProgress (i + 1) (totalChunks fo.size cs))
      ∧ List.Chain' (· ≤ ·) (progressWrites (onChunkSubmit ad (fo :: rest) cs))
      ∧ (progressWrites (onChunkSubmit ad (fo :: rest) cs)).getLast? = some 100
      ∧ (totalChunks fo.size cs ≤ 100 →
          List.Chain' (· < ·) (progressWrites (onChunkSubmit ad (fo :: rest) cs))) := by
  have htr : onChunkSubmit ad (fo :: rest) cs
      = runChunks ad fo cs (totalChunks fo.size cs)
          (List.range (totalChunks fo.size cs))
        ++ [Event.refetch, Event.onSuccess] := rfl
  have hmem : ∀ i ∈ List.range (totalChunks fo.size cs), isOk (ad i) = true :=
    fun i hi => hok i (List.mem_range.mp hi)
  have hw : progressWrites (onChunkSubmit ad (fo :: rest) cs)
      = (List.range (totalChunks fo.size cs)).map
          (fun i => roundProgress (i + 1) (totalChunks fo.size cs)) := by
    rw [htr, progressWrites_append, progressWrites_runChunks_ok hmem]
    simp [progressWrites]
  refine ⟨hw, ?_, ?_, ?_⟩
  · rw [hw]
    exact chain_le_map_range _ (fun i => roundProgress_mono (i + 1) _) _
  · rw [hw]
    obtain ⟨m, hm⟩ : ∃ m, totalChunks fo.size cs = m + 1 :=
      ⟨totalChunks fo.size cs - 1, by omega⟩
    rw [hm, List.range_succ, List.map_append]
    simp only [List.map_cons, List.map_nil]
    rw [List.getLast?_concat, roundProgress_last (m + 1) (by omega)]
  · intro h100
    rw [hw]
    exact chain_lt_map_range _
      (fun i => roundProgress_strict (i + 1) _ hn h100) _

/-- Witness for C7: two 1-byte chunks, both accepted; the final recorded
progress is exactly 100. -/
theorem C7_progress_monotone_witness :
    ((∀ i, i < totalChunks 2 1 → isOk ((fun _ => Outcome.ok) i) = true)
        ∧ 1 ≤ totalChunks 2 1)
      ∧ (progressWrites (onChunkSubmit (fun _ => Outcome.ok) [⟨"a", 2⟩] 1)).getLast?
          = some 100 := by
  refine ⟨⟨fun i hi => rfl, by decide⟩, ?_⟩
  exact (C7_progress_monotone (fun _ => Outcome.ok) 1 ⟨"a", 2⟩ []
    (fun i hi => rfl) (by decide)).2.2.1

/-- C7 counterexample: a successful run with 101 chunks is NOT strictly
increasing — chunks 50 and 51 both round to 50%. -/
theorem C7_counterexample :
    ¬ List.Chain' (· < ·)
      (progressWrites (onChunkSubmit (fun _ => Outcome.ok) [⟨"a", 101⟩] 1)) := by
  intro h
  have h49 := List.chain'_iff_get.mp h 49 (by decide)
  revert h49
  decide

/-- C8 (amended): an empty-selection submit makes no transport-adapter call
in either mode; the chunked handler performs nothing at all, but the
whole-file handler still emits the refresh, the success notification and the
(vacuous) selection clear, treating the empty batch as a success. -/
theorem C8_empty_submit (ad : Nat → Outcome) (cs : Nat)
    (upload : File → Outcome) :
    onChunkSubmit ad [] cs = []
      ∧ chunkCalls (onChunkSubmit ad [] cs) = []
      ∧ onSubmit upload [] = [Event.refetch, Event.onSuccess, Event.setFiles []]
      ∧ uploadCalls (onSubmit upload []) = [] :=
  ⟨rfl, rfl, rfl, rfl⟩

/-- C8 counterexample: submitting the whole-file form with an empty selection
still invokes `onSuccess` and the refresh, refuting "no notification,
refresh, or state change". -/
theorem C8_counterexample :
    onSuccessCount (onSubmit (fun _ => Outcome.ok) []) = 1
      ∧ refetchCount (onSubmit (fun _ => Outcome.ok) []) = 1 := by
  decide

/-- C9 (amended): within one chunked attempt the recorded progress values are
monotonically non-decreasing; but an attempt neither resets the progress nor
clears the error at its start — its first event is already the first chunk
call (or the refresh when there are no chunks), and the only error message
an attempt ever writes is `"Chunked upload failed"`, never the empty
string. -/
theorem C9_attempt_lifecycle (ad : Nat → Outcome) (cs : Nat)
    (files : List File) :
    List.Chain' (· ≤ ·) (progressWrites (onChunkSubmit ad files cs))
      ∧ (∀ m, Event.setError m ∈ onChunkSubmit ad files cs →
          m = "Chunked upload failed")
      ∧ ∀ e, (onChunkSubmit ad files cs).head? = some e →
          e = Event.refetch ∨ ∃ p, e = Event.callChunk p := by
  cases files with
  | nil =>
    refine ⟨by simp [onChunkSubmit, progressWrites], ?_, ?_⟩
    · intro m hm
      simp [onChunkSubmit] at hm
    · intro e he
      simp [onChunkSubmit] at he
  | cons fo rest =>
    have htr : onChunkSubmit ad (fo :: rest) cs
        = runChunks ad fo cs (totalChunks fo.size cs)
            (List.range (totalChunks fo.size cs))
          ++ [Event.refetch, Event.onSuccess] := rfl
    refine ⟨?_, ?_, ?_⟩
    · rw [htr, progressWrites_append]
      have h2 : progressWrites [Event.refetch, Event.onSuccess] = [] := rfl
      rw [h2, List.append_nil]
      obtain ⟨l₁, hpre, heq⟩ :=
        progressWrites_runChunks_initial (List.range (totalChunks fo.size cs))
      rw [heq]
      have h3 := List.prefix_iff_eq_take.mp hpre
      rw [h3, List.take_range]
      exact chain_le_map_range _ (fun i => roundProgress_mono (i + 1) _) _
    · intro m hm
      rw [htr, List.mem_append] at hm
      rcases hm with h | h
      · exact setError_mem_runChunks _ m h
      · simp at h
    · intro e he
      rw [htr] at he
      cases hn : totalChunks fo.size cs with
      | zero =>
        rw [hn] at he
        rw [show (runChunks ad fo cs 0 (List.range 0)
            ++ [Event.refetch, Event.onSuccess])
            = [Event.refetch, Event.onSuccess] from rfl] at he
        exact Or.inl (Option.some.inj he).symm
      | succ m =>
        rw [hn, List.range_succ_eq_map] at he
        obtain ⟨t, ht⟩ := @runChunks_cons_head ad fo cs (m + 1) 0
          ((List.range m).map Nat.succ)
        rw [ht, List.cons_append] at he
        exact Or.inr ⟨_, (Option.some.inj he).symm⟩

/-- Witness for C9: a fresh successful attempt's first event is the chunk-0
adapter call — no reset precedes it. -/
theorem C9_attempt_lifecycle_witness :
    (onChunkSubmit (fun _ => Outcome.ok) [⟨"a", 2⟩] 1).head?
        = some (Event.callChunk (mkChunkPayload ⟨"a", 2⟩ 1 2 0))
      ∧ (Event.callChunk (mkChunkPayload ⟨"a", 2⟩ 1 2 0) = Event.refetch
        ∨ ∃ p, Event.callChunk (mkChunkPayload ⟨"a", 2⟩ 1 2 0)
            = Event.callChunk p) := by
  refine ⟨rfl, ?_⟩
  exact (C9_attempt_lifecycle (fun _ => Outcome.ok) 1 [⟨"a", 2⟩]).2.2 _ rfl

/-- C9 counterexample: after a fully successful attempt (progress 100), a new
attempt that fails on its first chunk leaves the progress at 100 — it is not
reset to 0 when the attempt begins — and a successful new attempt started
with a stale `"Chunked upload failed"` error leaves that error in place
rather than clearing it. -/
theorem C9_counterexample :
    (applyTrace (applyTrace ⟨[⟨"a", 2⟩], "", 0⟩
          (onChunkSubmit (fun _ => Outcome.ok) [⟨"a", 2⟩] 1))
        (onChunkSubmit (fun _ => Outcome.reject) [⟨"a", 2⟩] 1)).chunksProgress = 100
      ∧ (applyTrace ⟨[⟨"a", 2⟩], "Chunked upload failed", 0⟩
          (onChunkSubmit (fun _ => Outcome.ok) [⟨"a", 2⟩] 1)).error
          = "Chunked upload failed" := by
  decide

/-- C10: submitting a selected zero-byte file in chunked mode plans zero
chunks, makes no chunk-adapter call, leaves the whole component state (hence
the progress, at its initial 0, and the selection) unchanged, yet still
triggers the companion-listing refresh and invokes `onSuccess` exactly once
with no failure notification — an instant success. -/
theorem C10_zero_byte_file (ad : Nat → Outcome) (cs : Nat) (nm : String)
    (rest : List File) (hc : 1 ≤ cs) :
    onChunkSubmit ad (⟨nm, 0⟩ :: rest) cs = [Event.refetch, Event.onSuccess]
      ∧ chunkCalls (onChunkSubmit ad (⟨nm, 0⟩ :: rest) cs) = []
      ∧ onSuccessCount (onChunkSubmit ad (⟨nm, 0⟩ :: rest) cs) = 1
      ∧ onFailCount (onChunkSubmit ad (⟨nm, 0⟩ :: rest) cs) = 0
      ∧ refetchCount (onChunkSubmit ad (⟨nm, 0⟩ :: rest) cs) = 1
      ∧ ∀ s, applyTrace s (onChunkSubmit ad (⟨nm, 0⟩ :: rest) cs) = s := by
  have h0 : totalChunks 0 cs = 0 := by
    unfold totalChunks
    exact Nat.div_eq_of_lt (by omega)
  have htr : onChunkSubmit ad (⟨nm, 0⟩ :: rest) cs
      = [Event.refetch, Event.onSuccess] := by
    show runChunks ad ⟨nm, 0⟩ cs (totalChunks 0 cs)
        (List.range (totalChunks 0 cs)) ++ [Event.refetch, Event.onSuccess] = _
    rw [h0]
    rfl
  refine ⟨htr, ?_, ?_, ?_, ?_, ?_⟩
  · rw [htr]
    rfl
  · rw [htr]
    rfl
  · rw [htr]
    rfl
  · rw [htr]
    rfl
  · intro s
    rw [htr]
    rfl

/-- Witness for C10: chunk size 5, zero-byte file; the trace is exactly the
refresh followed by the success notification. -/
theorem C10_zero_byte_file_witness :
    1 ≤ 5 ∧ onChunkSubmit (fun _ => Outcome.reject) [⟨"z", 0⟩] 5
      = [Event.refetch, Event.onSuccess] :=
  ⟨by decide, (C10_zero_byte_file (fun _ => Outcome.reject) 5 "z" [] (by decide)).1⟩

end Uploader
